import Mathlib

/-!
Verification development for the KMZ/KML → CSV conversion service
(`app.py`): a shallow embedding of the placemark extractor, boundary
index, geocode cache layer and conversion pipeline, with theorems about
their behaviour.

Modelling conventions:
* Python floats are modelled as exact rationals (`ℚ`); `float(...)`
  string parsing is modelled by a decimal parser `parseFloat?`.
* Python dicts (insertion ordered, overwrite keeps the original slot)
  are modelled as association lists with the operations `dictInsert`
  and `dictLookup`.
* External collaborators (the shapely geometry kernel, the Nominatim
  HTTP endpoint) are parameters: boolean containment predicates and an
  oracle for the network outcome.
-/

set_option autoImplicit false

namespace Kmz2Csv

/- Batteries marks the `Rat` field operations `@[irreducible]`, which
blocks `decide`/`rfl` evaluation of concrete rational arithmetic; the
operations are computable, so restore unfolding for this development. -/
attribute [local semireducible] Rat.add Rat.mul Rat.inv Rat.sub Rat.ofScientific

/-! ### Insertion-ordered dictionaries (Python `dict` semantics) -/

/-- Python `d[k] = v`: if the key is present its value is replaced in
place (the key keeps its original position); otherwise the pair is
appended at the end.  This matches CPython dict insertion order. -/
def dictInsert {K V : Type} [DecidableEq K] (d : List (K × V)) (k : K) (v : V) :
    List (K × V) :=
  if d.any (fun p => decide (p.1 = k)) then
    d.map (fun p => if p.1 = k then (k, v) else p)
  else
    d ++ [(k, v)]

/-- Python `d.get(k)` on an association list: first entry with the key. -/
def dictLookup {K V : Type} [DecidableEq K] (d : List (K × V)) (k : K) : Option V :=
  (d.find? (fun p => decide (p.1 = k))).map (fun p => p.2)

/-- Value of the LAST entry of the list carrying key `k` (the value that
wins when the list is folded into a dict, and the entry CPython's
`zipfile` name table retains for a duplicated member name). -/
def lastVal {K V : Type} [DecidableEq K] : List (K × V) → K → Option V
  | [], _ => none
  | (k0, v0) :: t, k =>
    match lastVal t k with
    | some w => some w
    | none => if k0 = k then some v0 else none

/-- Keys of an association list, in order. -/
def dictKeys {K V : Type} (d : List (K × V)) : List K :=
  d.map (fun p => p.1)

theorem dictLookup_nil {K V : Type} [DecidableEq K] (k : K) :
    dictLookup ([] : List (K × V)) k = none := rfl

theorem dictLookup_cons {K V : Type} [DecidableEq K] (k0 : K) (v0 : V)
    (t : List (K × V)) (k : K) :
    dictLookup ((k0, v0) :: t) k = if k0 = k then some v0 else dictLookup t k := by
  by_cases h : k0 = k <;> simp [dictLookup, List.find?_cons, h]

theorem dictLookup_map_replace {K V : Type} [DecidableEq K]
    (d : List (K × V)) (k k' : K) (v : V) :
    dictLookup (d.map (fun p => if p.1 = k then (k, v) else p)) k' =
      if k' = k then (dictLookup d k).map (fun _ => v) else dictLookup d k' := by
  induction d with
  | nil => by_cases h : k' = k <;> simp [dictLookup, h]
  | cons hd tl ih =>
    obtain ⟨a, b⟩ := hd
    by_cases hak : a = k <;> by_cases hk' : k' = k <;> by_cases hak' : a = k' <;>
      simp_all [List.map_cons, dictLookup_cons, eq_comm]

theorem dictLookup_append_single {K V : Type} [DecidableEq K]
    (d : List (K × V)) (k k' : K) (v : V) :
    dictLookup (d ++ [(k, v)]) k' =
      match dictLookup d k' with
      | some w => some w
      | none => if k = k' then some v else none := by
  induction d with
  | nil => simp [dictLookup_cons, dictLookup]
  | cons hd tl ih =>
    obtain ⟨a, b⟩ := hd
    by_cases ha : a = k' <;> simp [List.cons_append, dictLookup_cons, ha, ih]

theorem dictAny_eq_isSome {K V : Type} [DecidableEq K] (d : List (K × V)) (k : K) :
    d.any (fun p => decide (p.1 = k)) = (dictLookup d k).isSome := by
  induction d with
  | nil => simp [dictLookup]
  | cons hd tl ih =>
    obtain ⟨a, b⟩ := hd
    by_cases ha : a = k <;> simp [List.any_cons, dictLookup_cons, ha, ih]

theorem dictLookup_insert {K V : Type} [DecidableEq K]
    (d : List (K × V)) (k k' : K) (v : V) :
    dictLookup (dictInsert d k v) k' =
      if k' = k then some v else dictLookup d k' := by
  unfold dictInsert
  rw [dictAny_eq_isSome]
  by_cases hp : (dictLookup d k).isSome
  · simp only [hp, if_true]
    rw [dictLookup_map_replace]
    by_cases hk : k' = k
    · obtain ⟨w, hw⟩ := Option.isSome_iff_exists.mp hp
      simp [hk, hw]
    · simp [hk]
  · simp only [hp, if_false, Bool.false_eq_true]
    rw [dictLookup_append_single]
    have hnone : dictLookup d k = none := by
      cases h : dictLookup d k with
      | none => rfl
      | some w => rw [h] at hp; simp at hp
    by_cases hk : k' = k
    · subst hk; simp [hnone]
    · cases h : dictLookup d k' with
      | none => simp [hk, Ne.symm hk]
      | some w => simp [hk]

theorem dictLookup_foldl_insert {K V : Type} [DecidableEq K]
    (l : List (K × V)) (d : List (K × V)) (k : K) :
    dictLookup (l.foldl (fun a p => dictInsert a p.1 p.2) d) k =
      match lastVal l k with
      | some w => some w
      | none => dictLookup d k := by
  induction l generalizing d with
  | nil => simp [lastVal]
  | cons hd tl ih =>
    obtain ⟨k0, v0⟩ := hd
    rw [List.foldl_cons, ih]
    rw [show lastVal ((k0, v0) :: tl) k =
        (match lastVal tl k with
         | some w => some w
         | none => if k0 = k then some v0 else none) from rfl]
    cases h : lastVal tl k with
    | some w => simp
    | none =>
      simp only []
      rw [dictLookup_insert]
      by_cases hk : k0 = k
      · simp [hk]
      · simp [hk, Ne.symm hk]

theorem lastVal_append {K V : Type} [DecidableEq K]
    (a b : List (K × V)) (k : K) :
    lastVal (a ++ b) k =
      match lastVal b k with
      | some w => some w
      | none => lastVal a k := by
  induction a with
  | nil => cases h : lastVal b k <;> simp [lastVal, h]
  | cons hd tl ih =>
    obtain ⟨k0, v0⟩ := hd
    rw [List.cons_append]
    rw [show lastVal ((k0, v0) :: (tl ++ b)) k =
        (match lastVal (tl ++ b) k with
         | some w => some w
         | none => if k0 = k then some v0 else none) from rfl]
    rw [ih]
    cases hb : lastVal b k <;> cases ht : lastVal tl k <;> simp [lastVal, ht]

theorem lastVal_map_value {K V W : Type} [DecidableEq K]
    (l : List (K × V)) (g : V → W) (k : K) :
    lastVal (l.map (fun p => (p.1, g p.2))) k = (lastVal l k).map g := by
  induction l with
  | nil => simp [lastVal]
  | cons hd tl ih =>
    obtain ⟨k0, v0⟩ := hd
    simp only [List.map_cons]
    rw [show lastVal ((k0, g v0) :: (tl.map (fun p => (p.1, g p.2)))) k =
        (match lastVal (tl.map (fun p => (p.1, g p.2))) k with
         | some w => some w
         | none => if k0 = k then some (g v0) else none) from rfl]
    rw [ih]
    cases h : lastVal tl k with
    | some w => simp [lastVal, h]
    | none =>
      by_cases hk : k0 = k <;> simp [lastVal, h, hk]

theorem dictKeys_cons {K V : Type} (k0 : K) (v0 : V) (t : List (K × V)) :
    dictKeys ((k0, v0) :: t) = k0 :: dictKeys t := rfl

theorem mem_dictKeys_iff_isSome {K V : Type} [DecidableEq K]
    (d : List (K × V)) (k : K) :
    k ∈ dictKeys d ↔ (dictLookup d k).isSome := by
  induction d with
  | nil => simp [dictKeys, dictLookup]
  | cons hd tl ih =>
    obtain ⟨a, b⟩ := hd
    rw [dictKeys_cons, dictLookup_cons, List.mem_cons]
    by_cases ha : a = k
    · simp [ha]
    · simp [ha, Ne.symm ha, ih]

theorem lastVal_eq_none_of_not_mem {K V : Type} [DecidableEq K]
    (d : List (K × V)) (k : K) (h : k ∉ dictKeys d) : lastVal d k = none := by
  induction d with
  | nil => rfl
  | cons hd tl ih =>
    obtain ⟨k0, v0⟩ := hd
    rw [dictKeys_cons, List.mem_cons] at h
    push_neg at h
    have h0 : ¬ k0 = k := fun he => h.1 he.symm
    have ht := ih h.2
    simp [lastVal, ht, h0]

theorem lastVal_eq_dictLookup_of_nodup {K V : Type} [DecidableEq K]
    (d : List (K × V)) (k : K) (h : (dictKeys d).Nodup) :
    lastVal d k = dictLookup d k := by
  induction d with
  | nil => rfl
  | cons hd tl ih =>
    obtain ⟨k0, v0⟩ := hd
    rw [dictKeys_cons, List.nodup_cons] at h
    rw [dictLookup_cons]
    by_cases hk : k0 = k
    · subst hk
      rw [show lastVal ((k0, v0) :: tl) k0 =
          (match lastVal tl k0 with
           | some w => some w
           | none => if k0 = k0 then some v0 else none) from rfl]
      rw [lastVal_eq_none_of_not_mem tl k0 h.1]
      simp
    · rw [show lastVal ((k0, v0) :: tl) k =
          (match lastVal tl k with
           | some w => some w
           | none => if k0 = k then some v0 else none) from rfl]
      rw [ih h.2]
      cases h' : dictLookup tl k <;> simp [hk, h']

theorem dictKeys_insert {K V : Type} [DecidableEq K]
    (d : List (K × V)) (k : K) (v : V) :
    dictKeys (dictInsert d k v) =
      if (dictLookup d k).isSome then dictKeys d else dictKeys d ++ [k] := by
  unfold dictInsert
  rw [dictAny_eq_isSome]
  by_cases hp : (dictLookup d k).isSome
  · simp only [hp, if_true]
    unfold dictKeys
    rw [List.map_map]
    refine List.map_congr_left ?_
    intro p _
    by_cases h : p.1 = k <;> simp [h]
  · simp [hp, dictKeys]

theorem dictKeys_nodup_insert {K V : Type} [DecidableEq K]
    (d : List (K × V)) (k : K) (v : V) (h : (dictKeys d).Nodup) :
    (dictKeys (dictInsert d k v)).Nodup := by
  rw [dictKeys_insert]
  by_cases hp : (dictLookup d k).isSome
  · simpa [hp] using h
  · have hnm : k ∉ dictKeys d := fun hm => hp ((mem_dictKeys_iff_isSome d k).mp hm)
    simp only [hp, if_false, Bool.false_eq_true]
    rw [List.nodup_append]
    exact ⟨h, List.nodup_singleton k, by
      intro a ha hb
      simp at hb
      subst hb
      exact hnm ha⟩

theorem dictKeys_nodup_foldl {K V : Type} [DecidableEq K]
    (l : List (K × V)) (d : List (K × V)) (h : (dictKeys d).Nodup) :
    (dictKeys (l.foldl (fun a p => dictInsert a p.1 p.2) d)).Nodup := by
  induction l generalizing d with
  | nil => exact h
  | cons hd tl ih =>
    rw [List.foldl_cons]
    exact ih _ (dictKeys_nodup_insert _ _ _ h)

/-! ### Python string primitives

Core `String.trim`/`String.splitOn`/`String.endsWith` are written with
byte-position loops that the kernel cannot evaluate, so the Python
string operations used by `app.py` (`.strip()`, `.split()`,
`.split(",")`, `.lower()`, `.endswith(...)`, slicing) are implemented
structurally over the character list. -/

/-- Python `s.strip()` (whitespace from both ends). -/
def pyStripList (cs : List Char) : List Char :=
  ((cs.dropWhile Char.isWhitespace).reverse.dropWhile Char.isWhitespace).reverse

/-- Python `s.strip()`. -/
def pyStrip (s : String) : String := String.mk (pyStripList s.data)

/-- Accumulator pass for whitespace tokenization. -/
def wordsAux : List Char → List Char → List (List Char)
  | [], acc => if acc.isEmpty then [] else [acc.reverse]
  | c :: t, acc =>
    if c.isWhitespace then
      if acc.isEmpty then wordsAux t [] else acc.reverse :: wordsAux t []
    else wordsAux t (c :: acc)

/-- Python `s.split()`: split on whitespace runs, no empty tokens. -/
def pySplitWs (s : String) : List String := (wordsAux s.data []).map String.mk

/-- Accumulator pass for separator splitting. -/
def splitSepAux (sep : Char) : List Char → List Char → List (List Char)
  | [], acc => [acc.reverse]
  | c :: t, acc =>
    if c = sep then acc.reverse :: splitSepAux sep t []
    else splitSepAux sep t (c :: acc)

/-- Python `s.split(",")`: always at least one field, empty fields kept. -/
def pySplitComma (s : String) : List String := (splitSepAux ',' s.data []).map String.mk

/-- Python `s.lower()` (ASCII range, which covers the file suffixes). -/
def pyLower (s : String) : String := String.mk (s.data.map Char.toLower)

/-- Python `s.endswith(suf)`. -/
def pyEndsWith (s suf : String) : Bool :=
  List.isPrefixOf suf.data.reverse s.data.reverse

/-- Python `s[:n]` slicing. -/
def pySlice (s : String) (n : ℕ) : String := String.mk (s.data.take n)

/-! ### Numeric strings: `float(...)` parsing and `f"{x:.5f}"` formatting

Python floats are modelled as exact rationals.  `parseFloat?` models
`float(s)` on finite decimal/exponent notation (`None` on anything
unparsable); `fmt5` models fixed-5-decimal formatting with round half
to even, including the `-0.00000` sign Python keeps for tiny negative
values. -/

def digitsVal (cs : List Char) : ℕ :=
  cs.foldl (fun a c => a * 10 + (c.toNat - 48)) 0

/-- Mantissa of a decimal literal: `digits`, `digits.digits`,
`digits.` or `.digits` (at least one digit in total). -/
def parseMantissa (cs : List Char) : Option ℚ :=
  let ip := cs.takeWhile Char.isDigit
  let rest := cs.dropWhile Char.isDigit
  match rest with
  | [] => if ip.isEmpty then none else some (digitsVal ip)
  | c :: rest2 =>
    if c = '.' then
      let fp := rest2.takeWhile Char.isDigit
      let rest3 := rest2.dropWhile Char.isDigit
      if rest3.isEmpty then
        if ip.isEmpty ∧ fp.isEmpty then none
        else some ((digitsVal ip : ℚ) + (digitsVal fp : ℚ) / (10 : ℚ) ^ fp.length)
      else none
    else none

/-- Signed integer exponent after `e`/`E`. -/
def parseExponent (cs : List Char) : Option ℤ :=
  let (sgn, cs2) : ℤ × List Char :=
    match cs with
    | '+' :: t => (1, t)
    | '-' :: t => (-1, t)
    | t => (1, t)
  if cs2.isEmpty ∨ ¬ cs2.all Char.isDigit then none
  else some (sgn * (digitsVal cs2 : ℤ))

/-- Models Python `float(s)` on finite decimal notation: optional sign,
decimal mantissa, optional `e`/`E` exponent, surrounding whitespace
stripped.  Returns `none` where `float(...)` raises `ValueError`. -/
def parseFloat? (s : String) : Option ℚ :=
  let cs := pyStripList s.data
  let (sgn, cs2) : ℚ × List Char :=
    match cs with
    | '+' :: t => (1, t)
    | '-' :: t => (-1, t)
    | t => (1, t)
  let mant := cs2.takeWhile (fun c => c ≠ 'e' ∧ c ≠ 'E')
  let rest := cs2.dropWhile (fun c => c ≠ 'e' ∧ c ≠ 'E')
  match rest with
  | [] => (parseMantissa mant).map (fun m => sgn * m)
  | _ :: et =>
    match parseMantissa mant, parseExponent et with
    | some m, some e =>
      if 0 ≤ e then some (sgn * m * (10 : ℚ) ^ e.toNat)
      else some (sgn * m / (10 : ℚ) ^ (-e).toNat)
    | _, _ => none

/-- Floor of a rational (denominators are positive, so Euclidean
division of the numerator gives the floor). -/
def qfloor (q : ℚ) : ℤ := Int.ediv q.num q.den

/-- Round half to even to the nearest integer (IEEE/`str.format`
rounding). -/
def roundHalfEven (q : ℚ) : ℤ :=
  let f := qfloor q
  if q - (f : ℚ) < 1 / 2 then f
  else if (1 : ℚ) / 2 < q - (f : ℚ) then f + 1
  else if f % 2 = 0 then f else f + 1

/-- Left-pad a numeral to five digits. -/
def pad5 (n : ℕ) : String :=
  let s := toString n
  String.mk (List.replicate (5 - s.length) '0') ++ s

/-- Models Python `f"{q:.5f}"`: fixed five decimal places, round half
to even, with the sign kept on negative values that round to zero. -/
def fmt5 (q : ℚ) : String :=
  let n := roundHalfEven (q * 100000)
  let a := n.natAbs
  let sgn := if n < 0 ∨ (n = 0 ∧ q < 0) then "-" else ""
  sgn ++ toString (a / 100000) ++ "." ++ pad5 (a % 100000)

/-- Python `or` on `Optional[str]`: `None` and the empty string are
falsy. -/
def pyOr (a b : Option String) : Option String :=
  match a with
  | some s => if s = "" then b else some s
  | none => b

/-! ### Boundary index (`assign_boundary`, app.py lines 116-123)

A parsed polygon is kept as `(bname, prep(poly), poly)`.  The shapely
membership tests are external collaborators, so an entry carries the
two boolean predicates: `ppolyContains` is the prepared-geometry
`contains` (strict interior) and `polyTouches` the exact-geometry
`touches` (point exactly on the boundary).  Both receive the shapely
`Point(lon, lat)`, i.e. an `(lon, lat)` pair. -/

structure PolyEntry where
  bname : String
  ppolyContains : ℚ × ℚ → Bool
  polyTouches : ℚ × ℚ → Bool

/-- The loop condition `ppoly.contains(p) or poly.touches(p)`. -/
def pointMatches (lat lon : ℚ) (e : PolyEntry) : Bool :=
  e.ppolyContains (lon, lat) || e.polyTouches (lon, lat)

/-- `assign_boundary(lat, lon, polygons)`: first polygon, in
construction order, whose prepared geometry contains `Point(lon, lat)`
or whose exact geometry touches it; `None` when no polygon matches. -/
def assign_boundary (lat lon : ℚ) : List PolyEntry → Option String
  | [] => none
  | e :: rest =>
    if pointMatches lat lon e then some e.bname else assign_boundary lat lon rest

/-! ### Geocode client (`reverse_geocode_nominatim_cached`, lines 125-154)

The SQLite table `geocache` is a map from the rounded-coordinate key
`(lat_round, lon_round)` to `(road, raw_json)`; `INSERT OR REPLACE`
upserts.  The Nominatim HTTP exchange is an oracle: `fail` covers a
network error, a non-2xx status (`raise_for_status`) and a malformed
payload (`r.json()` raising); `ok` carries the relevant address fields
and the raw payload text. -/

abbrev Cache : Type := List ((String × String) × (Option String × String))

/-- Relevant part of a successful Nominatim response. -/
structure NominatimPayload where
  road : Option String
  residential : Option String
  pedestrian : Option String
  raw : String
  deriving DecidableEq

/-- Outcome of the external HTTP exchange. -/
inductive ExtOutcome where
  | fail
  | ok (payload : NominatimPayload)
  deriving DecidableEq

/-- Result of one `reverse_geocode_nominatim_cached` call: the returned
value or the propagated exception, the cache afterwards, and the
observable effects (external requests attempted, throttle sleeps). -/
structure GeoResult where
  result : Except Unit (Option String)
  cache : Cache
  externalCalls : ℕ
  sleeps : ℕ

/-- `reverse_geocode_nominatim_cached(lat, lon)`.  A cache hit returns
the stored `road` (possibly `NULL`) with no external call and no
sleep.  On a miss the external call happens; a failure propagates with
nothing persisted and no sleep; on success the street is selected by
`road or residential or pedestrian`, the entry is upserted under the
rounded key, and the throttle sleep runs. -/
def reverse_geocode_nominatim_cached (lat lon : ℚ) (cache : Cache) (ext : ExtOutcome) :
    GeoResult :=
  match dictLookup cache (fmt5 lat, fmt5 lon) with
  | some row => ⟨.ok row.1, cache, 0, 0⟩
  | none =>
    match ext with
    | .fail => ⟨.error (), cache, 1, 0⟩
    | .ok payload =>
      let road := pyOr payload.road (pyOr payload.residential payload.pedestrian)
      ⟨.ok road, dictInsert cache (fmt5 lat, fmt5 lon) (road, pySlice payload.raw 2000), 1, 1⟩

theorem reverse_geocode_hit (lat lon : ℚ) (c : Cache) (e : ExtOutcome)
    (road : Option String) (raw : String)
    (h : dictLookup c (fmt5 lat, fmt5 lon) = some (road, raw)) :
    reverse_geocode_nominatim_cached lat lon c e = ⟨.ok road, c, 0, 0⟩ := by
  unfold reverse_geocode_nominatim_cached
  rw [h]

/-! ### Placemark extractor (`parse_extended_data`, `parse_polygons`,
`parse_points`, app.py lines 52-114)

The parsed document tree (produced by the external `lxml` parser) is
modelled as the list of `Placemark` elements with the fields the
extractor reads.  For a text-carrying element, `none` means the element
is absent; an element whose text is `None` in lxml is modelled as the
empty string, which the code treats identically (both are falsy, both
strip to empty). -/

/-- One `kml:Placemark` element, seen through the XPath queries the
extractor performs. -/
structure Placemark where
  /-- Text of the `kml:name` child (`none` = no such element). -/
  name : Option String
  /-- Whether a `kml:Polygon` descendant exists. -/
  hasPolygon : Bool
  /-- Text of `outerBoundaryIs//LinearRing//coordinates` (`none` = no
  such element). -/
  polyCoords : Option String
  /-- Whether a `kml:Point` descendant exists. -/
  hasPoint : Bool
  /-- Text of `Point/coordinates` (`none` = no such element). -/
  pointCoords : Option String
  /-- The `ExtendedData` element, when present: the `Data` entries
  (`name` attribute, `value` child text) in document order, then the
  `SchemaData/SimpleData` entries (`name` attribute, element text).
  An absent attribute or text is `none`. -/
  extData : Option (List (Option String × Option String) × List (Option String × Option String))
  deriving DecidableEq

/-- A value in a point record: Python `None`, `str` or `float`. -/
inductive PyVal where
  | vNone
  | vStr (s : String)
  | vNum (q : ℚ)
  deriving DecidableEq

/-- A point record: the Python dict for one row. -/
abbrev Row : Type := List (Option String × PyVal)

/-- Exceptions the conversion can raise: an explicit
`HTTPException(400, msg)`, or an uncaught `ValueError`/`TypeError`
coming from `float(...)`/`shapely`. -/
inductive AppErr where
  | http (msg : String)
  | valueError
  deriving DecidableEq

/-- `parse_extended_data(pm)`: start from `{}`, write every
`ExtendedData/Data` entry, then every `SchemaData/SimpleData` entry,
so a name supplied by both forms keeps the SimpleData value. -/
def parse_extended_data (pm : Placemark) : List (Option String × Option String) :=
  match pm.extData with
  | none => []
  | some (ds, ss) => (ds ++ ss).foldl (fun d p => dictInsert d p.1 p.2) []

/-- `name_el.text.strip() if name_el is not None and name_el.text else
dflt`: the default applies when the element is missing or its text is
falsy (empty); truthy text is stripped (so whitespace-only text gives
`""`, not the default). -/
def nameOrDefault (n : Option String) (dflt : String) : String :=
  match n with
  | some t => if t = "" then dflt else pyStrip t
  | none => dflt

/-- Blank test `not (coords_el.text or "").strip()` plus element
absence: placemarks whose coordinate text is missing or
whitespace-only are skipped. -/
def isBlankText : Option String → Bool
  | none => true
  | some s => pyStrip s = ""

/-- One `lon,lat[,...]` token of a ring:
`lon, lat, *_ = token.split(",")` then `float` on both.  `none` models
the `ValueError` from too few fields or a bad float. -/
def parseLonLatToken (token : String) : Option (ℚ × ℚ) :=
  match pySplitComma token with
  | lon :: lat :: _ =>
    match parseFloat? lon, parseFloat? lat with
    | some x, some y => some (x, y)
    | _, _ => none
  | _ => none

/-- Parse each token of `text.strip().split()`, raising on the first
bad token. -/
def parseRingTokens : List String → Except AppErr (List (ℚ × ℚ))
  | [] => .ok []
  | tok :: rest =>
    match parseLonLatToken tok with
    | some p => (parseRingTokens rest).map (fun l => p :: l)
    | none => .error .valueError

/-- All whitespace-separated tokens of a ring's coordinate text. -/
def parseRingText (text : String) : Except AppErr (List (ℚ × ℚ)) :=
  parseRingTokens (pySplitWs (pyStrip text))

/-- `parse_polygons(root)`: every placemark with a polygon geometry
contributes `(boundary name, ring coordinates)`; missing/blank
coordinate text skips the placemark; a ring that parses to fewer than
three vertices raises (shapely `Polygon` requires at least three
coordinate tuples). -/
def parse_polygons : List Placemark → Except AppErr (List (String × List (ℚ × ℚ)))
  | [] => .ok []
  | pm :: rest =>
    if pm.hasPolygon then
      if isBlankText pm.polyCoords then parse_polygons rest
      else
        match parseRingText ((pm.polyCoords).getD "") with
        | .error e => .error e
        | .ok coords =>
          if coords.length < 3 then .error .valueError
          else
            (parse_polygons rest).map
              (fun l => (nameOrDefault pm.name "UNKNOWN_BOUNDARY", coords) :: l)
    else parse_polygons rest

/-- `hp_name`: point label, `None` when the name element is missing or
its text empty; truthy text is stripped. -/
def pointName (n : Option String) : Option String :=
  match n with
  | some t => if t = "" then none else some (pyStrip t)
  | none => none

/-- `lon, lat, *_ = coords_el.text.strip().split(",")` then `float` on
both; `none` models the raised `ValueError`. -/
def parsePointCoordText (text : String) : Option (ℚ × ℚ) :=
  parseLonLatToken (pyStrip text)

/-- An `Optional[str]` as a row value. -/
def pyOfOpt : Option String → PyVal
  | some s => .vStr s
  | none => .vNone

/-- The row dict
`{"homepass": hp_name, "lat": lat, "lon": lon, **data}`: the three
fixed keys in literal order, then the extended-data mapping merged
with dict-update semantics (values overwrite, first position kept). -/
def pointRow (pm : Placemark) (lon lat : ℚ) : Row :=
  ((parse_extended_data pm).map (fun p => (p.1, pyOfOpt p.2))).foldl
    (fun d p => dictInsert d p.1 p.2)
    [(some "homepass", pyOfOpt (pointName pm.name)),
     (some "lat", PyVal.vNum lat),
     (some "lon", PyVal.vNum lon)]

/-- `parse_points(root)`: every placemark with a point geometry and
non-blank coordinate text contributes its row dict; blank coordinate
text skips the placemark; unparsable coordinate text raises. -/
def parse_points : List Placemark → Except AppErr (List Row)
  | [] => .ok []
  | pm :: rest =>
    if pm.hasPoint then
      if isBlankText pm.pointCoords then parse_points rest
      else
        match parsePointCoordText ((pm.pointCoords).getD "") with
        | none => .error .valueError
        | some (lon, lat) =>
          (parse_points rest).map (fun l => pointRow pm lon lat :: l)
    else parse_points rest

/-! ### Conversion pipeline (`convert`, app.py lines 160-202)

`convert` starts from the parsed document tree (the upload handling and
XML parse precede it).  The shapely constructor/prepared-geometry pair
for a ring is the external parameter `geom`; the network is the oracle
`oracle`, indexed by the position of the point in the loop. -/

/-- Python `float(value)` on a DataFrame cell: a float stays itself, a
string is re-parsed, `None` raises (`none` here). -/
def pyFloatVal : Option PyVal → Option ℚ
  | some (.vNum q) => some q
  | some (.vStr s) => parseFloat? s
  | _ => none

/-- Body of the per-point `try` block:
`reverse_geocode_nominatim_cached(float(r["lat"]), float(r["lon"]))`.
Returns the outcome together with the cache afterwards. -/
def geoStep (r : Row) (c : Cache) (ext : ExtOutcome) :
    Except Unit (Option String) × Cache :=
  match pyFloatVal (dictLookup r (some "lat")), pyFloatVal (dictLookup r (some "lon")) with
  | some la, some lo =>
    let g := reverse_geocode_nominatim_cached la lo c ext
    (g.result, g.cache)
  | _, _ => (.error (), c)

/-- The geocode loop of `convert`: per row, run the `try` body and
append the street name, or `None` when anything in the body raises;
processing always continues with the next row. -/
def geocodeRows : List Row → Cache → (ℕ → ExtOutcome) → List (Option String) × Cache
  | [], c, _ => ([], c)
  | r :: rs, c, o =>
    let st := geoStep r c (o 0)
    let s := match st.1 with
      | .ok v => v
      | .error _ => none
    let t := geocodeRows rs st.2 (fun n => o (n + 1))
    (s :: t.1, t.2)

/-- One row of
`df["boundary"] = df.apply(lambda r: assign_boundary(r["lat"], r["lon"], polygons), axis=1)`.
`shapely.Point` rejects non-numeric input, so a row whose `lat`/`lon`
value is not a number raises. -/
def assignRow (entries : List PolyEntry) (r : Row) : Except AppErr Row :=
  match dictLookup r (some "lat"), dictLookup r (some "lon") with
  | some (.vNum la), some (.vNum lo) =>
    .ok (dictInsert r (some "boundary") (pyOfOpt (assign_boundary la lo entries)))
  | _, _ => .error .valueError

/-- The boundary column pass over all rows (first raising row aborts). -/
def assignRows (entries : List PolyEntry) : List Row → Except AppErr (List Row)
  | [] => .ok []
  | r :: rs =>
    match assignRow entries r with
    | .error e => .error e
    | .ok r' => (assignRows entries rs).map (fun l => r' :: l)

/-- Append a column label if it is new (pandas `df[c] = ...`). -/
def colAdd (cols : List (Option String)) (k : Option String) : List (Option String) :=
  if k ∈ cols then cols else cols ++ [k]

/-- `pd.DataFrame(list_of_dicts)` column order: keys in order of first
appearance across the rows. -/
def firstSeenCols (rows : List Row) : List (Option String) :=
  rows.foldl (fun acc r => (dictKeys r).foldl colAdd acc) []

/-- `front = ["homepass", "lat", "lon", "nama_jalan", "boundary"]`. -/
def frontCols : List (Option String) :=
  [some "homepass", some "lat", some "lon", some "nama_jalan", some "boundary"]

/-- `cols = [c for c in front if c in df.columns] + [c for c in df.columns if c not in front]`. -/
def orderCols (dfCols : List (Option String)) : List (Option String) :=
  frontCols.filter (fun c => decide (c ∈ dfCols)) ++
    dfCols.filter (fun c => decide (c ∉ frontCols))

/-- The produced table: final column order, the row dicts, and the
geocode cache afterwards. -/
structure ConvOut where
  cols : List (Option String)
  rows : List Row
  cache : Cache

def noPointsMsg : String := "Tidak ada titik (Point/homepass) ditemukan di file."

/-- The `/convert` pipeline after XML parsing: extract polygons and
points, reject when no points, add the boundary column, optionally run
the geocode loop (each per-point failure caught as `None`), and order
the columns. -/
def convert (doc : List Placemark) (with_geocode : Option String)
    (geom : List (ℚ × ℚ) → ((ℚ × ℚ) → Bool) × ((ℚ × ℚ) → Bool))
    (cache : Cache) (oracle : ℕ → ExtOutcome) : Except AppErr ConvOut :=
  match parse_polygons doc with
  | .error e => .error e
  | .ok polys =>
    match parse_points doc with
    | .error e => .error e
    | .ok pts =>
      if pts.isEmpty then .error (.http noPointsMsg)
      else
        let entries := polys.map (fun p => PolyEntry.mk p.1 (geom p.2).1 (geom p.2).2)
        match assignRows entries pts with
        | .error e => .error e
        | .ok rows1 =>
          let dfcols1 := colAdd (firstSeenCols pts) (some "boundary")
          if with_geocode.isSome then
            let gr := geocodeRows rows1 cache oracle
            let rows2 := List.zipWith
              (fun r s => dictInsert r (some "nama_jalan") (pyOfOpt s)) rows1 gr.1
            .ok ⟨orderCols (colAdd dfcols1 (some "nama_jalan")), rows2, gr.2⟩
          else
            .ok ⟨orderCols dfcols1, rows1, cache⟩

/-! ### Upload container handling (`extract_kml_bytes`, app.py lines 40-50)

The zip container is an external collaborator; an archive is its member
list `(name, content)` in central-directory order.  CPython's `zipfile`
resolves `read(name)` through a name→entry table built in listing
order, so a duplicated member name resolves to the LAST entry bearing
it (`lastVal`), while `namelist()` keeps all entries in order. -/

/-- `z.read(name)`: content of the last archive entry with that name. -/
def zipRead (archive : List (String × String)) (n : String) : Option String :=
  lastVal archive n

/-- `extract_kml_bytes(upload_bytes, filename)`: `.kml` uploads pass
through; `.kmz` uploads are opened as archives and the first member
name ending in `.kml` (case-insensitive) is read; no `.kml` member or
any other suffix is rejected. -/
def extract_kml_bytes (raw : String) (archive : List (String × String))
    (filename : Option String) : Except AppErr String :=
  let nm := pyLower (filename.getD "")
  if pyEndsWith nm ".kml" then .ok raw
  else if pyEndsWith nm ".kmz" then
    match (archive.map (fun p => p.1)).filter (fun n => pyEndsWith (pyLower n) ".kml") with
    | [] => .error (.http "KMZ tidak berisi file .kml")
    | n :: _ =>
      match zipRead archive n with
      | some content => .ok content
      | none => .error .valueError
  else .error (.http "File harus .kmz atau .kml")

/-! ## Claim theorems -/

/-! ### C1: first-match boundary assignment -/

/-- C1: `assign_boundary` scans the polygons in construction order and
returns the identifier of the first polygon whose prepared geometry
strictly contains the point or whose exact geometry touches it (point
on the boundary); when no polygon matches — in particular on the empty
polygon list — it returns `None`, and a point inside several
overlapping polygons gets the earliest-declared match's identifier. -/
theorem assign_boundary_first_match (lat lon : ℚ) (polys : List PolyEntry) :
    assign_boundary lat lon polys =
      Option.map PolyEntry.bname (polys.find? (pointMatches lat lon)) ∧
    (assign_boundary lat lon polys = none ↔
      ∀ e ∈ polys, pointMatches lat lon e = false) ∧
    (∀ i : ℕ, ∀ h : i < polys.length,
      (∀ j : ℕ, ∀ hj : j < i,
        pointMatches lat lon (polys.get ⟨j, Nat.lt_trans hj h⟩) = false) →
      pointMatches lat lon (polys.get ⟨i, h⟩) = true →
      assign_boundary lat lon polys = some (polys.get ⟨i, h⟩).bname) := by
  refine ⟨?_, ?_, ?_⟩
  · induction polys with
    | nil => rfl
    | cons e rest ih =>
      by_cases m : pointMatches lat lon e <;>
        simp [assign_boundary, List.find?_cons, m, ih]
  · induction polys with
    | nil => simp [assign_boundary]
    | cons e rest ih =>
      by_cases m : pointMatches lat lon e <;>
        simp [assign_boundary, m, ih]
  · induction polys with
    | nil => intro i h; simp at h
    | cons e rest ih =>
      intro i h hbefore hmatch
      cases i with
      | zero =>
        simp only [List.get] at hmatch
        simp [assign_boundary, hmatch]
      | succ i =>
        have h0 : pointMatches lat lon e = false := hbefore 0 (Nat.succ_pos i)
        simp only [assign_boundary, h0, Bool.false_eq_true, if_false]
        exact ih i (Nat.lt_of_succ_lt_succ h)
          (fun j hj => hbefore (j + 1) (Nat.succ_lt_succ hj)) hmatch

/-- A non-matching and a matching polygon, for the witness. -/
def polyA : PolyEntry := ⟨"A", fun _ => false, fun _ => false⟩

/-- A polygon whose prepared geometry contains everything. -/
def polyB : PolyEntry := ⟨"B", fun _ => true, fun _ => false⟩

/-- C1 witness: with `polyA` (no match) before `polyB` (match), the
point is assigned `"B"`, by the first-match theorem at index 1. -/
theorem assign_boundary_first_match_witness :
    assign_boundary 0 0 [polyA, polyB] = some "B" :=
  (assign_boundary_first_match 0 0 [polyA, polyB]).2.2 1 (by decide)
    (fun j hj => by
      have hj0 : j = 0 := Nat.lt_one_iff.mp hj
      subst hj0
      exact (by decide : pointMatches 0 0 polyA = false))
    (by decide)

/-! ### C2: cache hits -/

/-- C2: when the 5-decimal rounded key of the coordinate is present in
the cache store, the lookup returns exactly the stored street value
(including a stored `NULL`), leaves the cache unchanged, makes no
external call and never sleeps; hence a second lookup of any
coordinate rounding to the same key after a successful first lookup is
a pure cache read returning the first result. -/
theorem geocode_cache_hit :
    (∀ (lat lon : ℚ) (c : Cache) (e : ExtOutcome) (road : Option String) (raw : String),
      dictLookup c (fmt5 lat, fmt5 lon) = some (road, raw) →
      reverse_geocode_nominatim_cached lat lon c e = ⟨.ok road, c, 0, 0⟩) ∧
    (∀ (lat lon lat' lon' : ℚ) (c : Cache) (e e' : ExtOutcome) (road : Option String),
      fmt5 lat' = fmt5 lat → fmt5 lon' = fmt5 lon →
      (reverse_geocode_nominatim_cached lat lon c e).result = .ok road →
      reverse_geocode_nominatim_cached lat' lon'
          (reverse_geocode_nominatim_cached lat lon c e).cache e' =
        ⟨.ok road, (reverse_geocode_nominatim_cached lat lon c e).cache, 0, 0⟩) := by
  constructor
  · exact fun lat lon c e road raw h => reverse_geocode_hit lat lon c e road raw h
  · intro lat lon lat' lon' c e e' road h1 h2 hres
    cases hc : dictLookup c (fmt5 lat, fmt5 lon) with
    | some row =>
      have hg : reverse_geocode_nominatim_cached lat lon c e = ⟨.ok row.1, c, 0, 0⟩ := by
        unfold reverse_geocode_nominatim_cached
        rw [hc]
      rw [hg] at hres ⊢
      have hroad : row.1 = road := by
        simpa using hres
      apply reverse_geocode_hit lat' lon' c e' road row.2
      rw [h1, h2, hc, ← hroad]
    | none =>
      cases e with
      | fail =>
        have hg : reverse_geocode_nominatim_cached lat lon c .fail = ⟨.error (), c, 1, 0⟩ := by
          unfold reverse_geocode_nominatim_cached
          rw [hc]
        rw [hg] at hres
        simp at hres
      | ok payload =>
        have hg : reverse_geocode_nominatim_cached lat lon c (.ok payload) =
            ⟨.ok (pyOr payload.road (pyOr payload.residential payload.pedestrian)),
              dictInsert c (fmt5 lat, fmt5 lon)
                (pyOr payload.road (pyOr payload.residential payload.pedestrian),
                  pySlice payload.raw 2000), 1, 1⟩ := by
          unfold reverse_geocode_nominatim_cached
          rw [hc]
        rw [hg] at hres ⊢
        have hroad : pyOr payload.road (pyOr payload.residential payload.pedestrian) = road := by
          simpa using hres
        apply reverse_geocode_hit lat' lon' _ e' road (pySlice payload.raw 2000)
        rw [h1, h2, dictLookup_insert, if_pos rfl, hroad]

/-- A one-entry cache for the witness. -/
def cacheW : Cache := [(("1.00000", "2.00000"), (some "Jl. Merdeka", "raw"))]

/-- C2 witness: a lookup of `(1, 2)` against `cacheW` is a pure cache
read (no external call, no sleep, cache unchanged) returning the
stored street, by the cache-hit theorem. -/
theorem geocode_cache_hit_witness :
    reverse_geocode_nominatim_cached 1 2 cacheW .fail =
      ⟨.ok (some "Jl. Merdeka"), cacheW, 0, 0⟩ :=
  geocode_cache_hit.1 1 2 cacheW .fail (some "Jl. Merdeka") "raw" (by decide)

/-! ### C3: geocode failures -/

theorem reverse_geocode_error_cache (lat lon : ℚ) (c : Cache) (e : ExtOutcome)
    (h : (reverse_geocode_nominatim_cached lat lon c e).result = .error ()) :
    (reverse_geocode_nominatim_cached lat lon c e).cache = c := by
  unfold reverse_geocode_nominatim_cached at h ⊢
  cases hc : dictLookup c (fmt5 lat, fmt5 lon) with
  | some row => rfl
  | none =>
    cases e with
    | fail => rfl
    | ok payload =>
      rw [hc] at h
      simp at h

theorem geoStep_error_cache (r : Row) (c : Cache) (e : ExtOutcome)
    (h : (geoStep r c e).1 = .error ()) : (geoStep r c e).2 = c := by
  unfold geoStep at h ⊢
  cases h1 : pyFloatVal (dictLookup r (some "lat")) with
  | none => rfl
  | some la =>
    cases h2 : pyFloatVal (dictLookup r (some "lon")) with
    | none => rfl
    | some lo =>
      rw [h1, h2] at h
      exact reverse_geocode_error_cache la lo c e h

theorem geocodeRows_cons (r : Row) (rs : List Row) (c : Cache) (o : ℕ → ExtOutcome) :
    geocodeRows (r :: rs) c o =
      ((match (geoStep r c (o 0)).1 with
        | .ok v => v
        | .error _ => none) ::
          (geocodeRows rs (geoStep r c (o 0)).2 (fun n => o (n + 1))).1,
       (geocodeRows rs (geoStep r c (o 0)).2 (fun n => o (n + 1))).2) := rfl

/-- C3: a failing external call persists nothing (the cache is exactly
as before, and the call propagates the exception after one external
attempt and no sleep); the conversion loop catches the failure per
point, records `None` for that point and continues over the remaining
rows with the unchanged cache — the batch always yields one street
entry per row. -/
theorem geocode_failure_handling :
    (∀ (lat lon : ℚ) (c : Cache),
      dictLookup c (fmt5 lat, fmt5 lon) = none →
      reverse_geocode_nominatim_cached lat lon c .fail = ⟨.error (), c, 1, 0⟩) ∧
    (∀ (r : Row) (rs : List Row) (c : Cache) (o : ℕ → ExtOutcome),
      (geoStep r c (o 0)).1 = .error () →
      geocodeRows (r :: rs) c o =
        (none :: (geocodeRows rs c (fun n => o (n + 1))).1,
         (geocodeRows rs c (fun n => o (n + 1))).2)) ∧
    (∀ (rows : List Row) (c : Cache) (o : ℕ → ExtOutcome),
      (geocodeRows rows c o).1.length = rows.length) := by
  refine ⟨?_, ?_, ?_⟩
  · intro lat lon c h
    unfold reverse_geocode_nominatim_cached
    rw [h]
  · intro r rs c o herr
    have hc : (geoStep r c (o 0)).2 = c := geoStep_error_cache r c (o 0) herr
    rw [geocodeRows_cons, herr, hc]
  · intro rows
    induction rows with
    | nil => intro c o; rfl
    | cons r rs ih =>
      intro c o
      rw [geocodeRows_cons]
      simp [ih]

/-- A row holding plain numeric coordinates, for the witness. -/
def rowW0 : Row := [(some "lat", PyVal.vNum 1), (some "lon", PyVal.vNum 2)]

/-- C3 witness: on an empty cache a failing call propagates with the
cache untouched, and the loop over one row records `None` for it. -/
theorem geocode_failure_handling_witness :
    reverse_geocode_nominatim_cached 1 2 [] .fail = ⟨.error (), [], 1, 0⟩ ∧
    geocodeRows [rowW0] [] (fun _ => .fail) = ([none], []) :=
  ⟨geocode_failure_handling.1 1 2 [] rfl,
   by rw [geocode_failure_handling.2.1 rowW0 [] [] (fun _ => .fail) rfl]; rfl⟩

/-! ### C4: malformed geometry -/

/-- A polygon placemark whose ring text has no parsable coordinate. -/
def pmBadPoly : Placemark := ⟨none, true, some "abc", false, none, none⟩

/-- A point placemark whose coordinate text has no comma. -/
def pmBadPoint : Placemark := ⟨none, false, none, true, some "abc", none⟩

/-- C4 counterexample: a placemark with non-empty but unparsable
coordinate text is NOT skipped — extraction raises an uncaught
`ValueError` (for both a polygon ring and a point coordinate), so the
record is not "silently omitted" and the error is fatal for the
conversion. -/
theorem parse_malformed_counterexample :
    parse_polygons [pmBadPoly] = .error .valueError ∧
    parse_points [pmBadPoint] = .error .valueError ∧
    parse_polygons [pmBadPoly] ≠ .ok [] ∧
    parse_points [pmBadPoint] ≠ .ok [] := by
  refine ⟨rfl, rfl, ?_, ?_⟩
  · rw [show parse_polygons [pmBadPoly] = .error .valueError from rfl]
    exact fun h => Except.noConfusion h
  · rw [show parse_points [pmBadPoint] = .error .valueError from rfl]
    exact fun h => Except.noConfusion h

/-- C4 amended: extraction skips a placemark only when its coordinate
text is missing or strips to empty; non-empty coordinate text that
fails to parse raises the error out of extraction (aborting the
conversion) instead of skipping the placemark. -/
theorem parse_geometry_skip_amended :
    (∀ (pm : Placemark) (rest : List Placemark),
      pm.hasPolygon = true → isBlankText pm.polyCoords = true →
      parse_polygons (pm :: rest) = parse_polygons rest) ∧
    (∀ (pm : Placemark) (rest : List Placemark),
      pm.hasPoint = true → isBlankText pm.pointCoords = true →
      parse_points (pm :: rest) = parse_points rest) ∧
    (∀ (pm : Placemark) (rest : List Placemark) (e : AppErr),
      pm.hasPolygon = true → isBlankText pm.polyCoords = false →
      parseRingText ((pm.polyCoords).getD "") = .error e →
      parse_polygons (pm :: rest) = .error e) ∧
    (∀ (pm : Placemark) (rest : List Placemark),
      pm.hasPoint = true → isBlankText pm.pointCoords = false →
      parsePointCoordText ((pm.pointCoords).getD "") = none →
      parse_points (pm :: rest) = .error .valueError) := by
  refine ⟨?_, ?_, ?_, ?_⟩
  · intro pm rest h1 h2
    simp [parse_polygons, h1, h2]
  · intro pm rest h1 h2
    simp [parse_points, h1, h2]
  · intro pm rest e h1 h2 h3
    simp [parse_polygons, h1, h2, h3]
  · intro pm rest h1 h2 h3
    simp [parse_points, h1, h2, h3]

/-- A polygon placemark with whitespace-only ring text. -/
def pmBlankPoly : Placemark := ⟨none, true, some "   ", false, none, none⟩

/-- A point placemark with whitespace-only coordinate text. -/
def pmBlankPoint : Placemark := ⟨none, false, none, true, some " ", none⟩

/-- C4 amended witness: blank coordinate text skips the placemark;
unparsable text raises, at the concrete bad placemarks. -/
theorem parse_geometry_skip_amended_witness :
    parse_polygons [pmBlankPoly] = parse_polygons [] ∧
    parse_points [pmBlankPoint] = parse_points [] ∧
    parse_polygons [pmBadPoly] = .error .valueError ∧
    parse_points [pmBadPoint] = .error .valueError :=
  ⟨parse_geometry_skip_amended.1 pmBlankPoly [] rfl rfl,
   parse_geometry_skip_amended.2.1 pmBlankPoint [] rfl rfl,
   parse_geometry_skip_amended.2.2.1 pmBadPoly [] .valueError rfl rfl rfl,
   parse_geometry_skip_amended.2.2.2 pmBadPoint [] rfl rfl rfl⟩

/-! ### C5: schema-based attributes win -/

/-- C5: when the `SchemaData/SimpleData` entries of a placemark supply
an attribute name (its last such entry carrying value `v`), the merged
extended-data mapping holds `v` for that name, whatever the flat
`Data` entries supplied — the schema-based, later-processed form
wins. -/
theorem extended_data_schema_wins (pm : Placemark)
    (ds ss : List (Option String × Option String)) (k : Option String)
    (v : Option String)
    (hext : pm.extData = some (ds, ss))
    (hlast : lastVal ss k = some v) :
    dictLookup (parse_extended_data pm) k = some v := by
  unfold parse_extended_data
  rw [hext, dictLookup_foldl_insert, lastVal_append, hlast]

/-- A placemark supplying `x` through both attribute forms. -/
def pmC5 : Placemark :=
  ⟨none, false, none, false, none,
    some ([(some "x", some "flat")], [(some "x", some "schema")])⟩

/-- C5 witness: both forms supply `x`; the merged mapping holds the
schema value. -/
theorem extended_data_schema_wins_witness :
    dictLookup (parse_extended_data pmC5) (some "x") = some (some "schema") :=
  extended_data_schema_wins pmC5
    [(some "x", some "flat")] [(some "x", some "schema")]
    (some "x") (some "schema") rfl rfl

/-! ### C6: the "no points" rejection -/

theorem assignRow_error (entries : List PolyEntry) (r : Row) (e : AppErr)
    (h : assignRow entries r = .error e) : e = .valueError := by
  unfold assignRow at h
  cases h1 : dictLookup r (some "lat") with
  | none => rw [h1] at h; cases h; rfl
  | some v1 =>
    cases h2 : dictLookup r (some "lon") with
    | none =>
      rw [h1, h2] at h
      cases v1 <;> cases h <;> rfl
    | some v2 =>
      rw [h1, h2] at h
      cases v1 <;> cases v2 <;> cases h <;> rfl

theorem assignRows_error (entries : List PolyEntry) (rows : List Row) (e : AppErr)
    (h : assignRows entries rows = .error e) : e = .valueError := by
  induction rows with
  | nil => cases h
  | cons r rs ih =>
    unfold assignRows at h
    cases ha : assignRow entries r with
    | error e' =>
      rw [ha] at h
      cases h
      exact assignRow_error entries r e ha
    | ok r' =>
      rw [ha] at h
      cases hrec : assignRows entries rs with
      | error e'' =>
        rw [hrec] at h
        cases h
        exact ih hrec
      | ok l => rw [hrec] at h; cases h

/-- C6: with extraction succeeding, the conversion rejects with the
fatal "no points found" message exactly when the document yields zero
point records — for either state of the geocode flag; no other input
state produces that rejection. -/
theorem convert_no_points (doc : List Placemark) (flag : Option String)
    (geom : List (ℚ × ℚ) → ((ℚ × ℚ) → Bool) × ((ℚ × ℚ) → Bool))
    (cache : Cache) (o : ℕ → ExtOutcome)
    (polys : List (String × List (ℚ × ℚ))) (pts : List Row)
    (hpoly : parse_polygons doc = .ok polys) (hpts : parse_points doc = .ok pts) :
    convert doc flag geom cache o = .error (.http noPointsMsg) ↔ pts = [] := by
  unfold convert
  rw [hpoly, hpts]
  by_cases hemp : pts.isEmpty
  · have hnil : pts = [] := List.isEmpty_iff.mp hemp
    simp [hemp, hnil]
  · have hne : pts ≠ [] := fun hh => hemp (by rw [hh]; rfl)
    simp only [hemp, Bool.false_eq_true, if_false]
    cases ha : assignRows (polys.map (fun p => PolyEntry.mk p.1 (geom p.2).1 (geom p.2).2)) pts with
    | error e =>
      have he : e = .valueError := assignRows_error _ _ _ ha
      subst he
      simp [hne]
    | ok rows1 =>
      cases hf : flag.isSome <;> simp [hf, hne]

/-- A document containing a single (polygon-only) placemark. -/
def pmPolyOnly : Placemark := ⟨some "B1", true, some "0,0 1,0 0,1", false, none, none⟩

/-- No-op geometry oracle for witnesses. -/
def geomW : List (ℚ × ℚ) → ((ℚ × ℚ) → Bool) × ((ℚ × ℚ) → Bool) :=
  fun _ => (fun _ => false, fun _ => false)

/-- C6 witness: a polygons-only document is rejected with the
"no points" message even with the geocode flag set. -/
theorem convert_no_points_witness :
    convert [pmPolyOnly] (some "1") geomW [] (fun _ => .fail) =
      .error (.http noPointsMsg) :=
  (convert_no_points [pmPolyOnly] (some "1") geomW [] (fun _ => .fail)
    [("B1", [(0, 0), (1, 0), (0, 1)])] [] rfl rfl).mpr rfl

/-! ### C7: output column order -/

theorem mem_colAdd (c : List (Option String)) (k k' : Option String) :
    k' ∈ colAdd c k ↔ k' ∈ c ∨ k' = k := by
  by_cases h : k ∈ c
  · simp only [colAdd, if_pos h]
    constructor
    · exact Or.inl
    · rintro (hc | he)
      · exact hc
      · rw [he]; exact h
  · simp [colAdd, h]

theorem filter_colAdd (c : List (Option String)) (k : Option String)
    (p : Option String → Bool) (hk : p k = false) :
    (colAdd c k).filter p = c.filter p := by
  unfold colAdd
  by_cases h : k ∈ c
  · simp [h]
  · simp [h, List.filter_append, hk]

theorem mem_orderCols (A : List (Option String)) (c : Option String) :
    c ∈ orderCols A ↔ c ∈ A := by
  unfold orderCols
  simp only [List.mem_append, List.mem_filter, decide_eq_true_eq]
  constructor
  · rintro (⟨_, hA⟩ | ⟨hA, _⟩) <;> exact hA
  · intro hA
    by_cases hf : c ∈ frontCols
    · exact Or.inl ⟨hf, hA⟩
    · exact Or.inr ⟨hA, hf⟩

theorem orderCols_filter_not_front (A : List (Option String)) :
    (orderCols A).filter (fun c => decide (c ∉ frontCols)) =
      A.filter (fun c => decide (c ∉ frontCols)) := by
  unfold orderCols
  rw [List.filter_append]
  have hx : (frontCols.filter (fun c => decide (c ∈ A))).filter
      (fun c => decide (c ∉ frontCols)) = [] := by
    rw [List.filter_eq_nil_iff]
    intro a ha
    have haf : a ∈ frontCols := (List.mem_filter.mp ha).1
    simp [haf]
  have hy : (A.filter (fun c => decide (c ∉ frontCols))).filter
      (fun c => decide (c ∉ frontCols)) =
      A.filter (fun c => decide (c ∉ frontCols)) := by
    rw [List.filter_filter]
    apply List.filter_congr
    intro a _
    rw [Bool.and_self]
  rw [hx, hy, List.nil_append]

theorem orderCols_decomp (A : List (Option String)) :
    orderCols A = frontCols.filter (fun c => decide (c ∈ orderCols A)) ++
      (orderCols A).filter (fun c => decide (c ∉ frontCols)) := by
  have h1 : frontCols.filter (fun c => decide (c ∈ orderCols A)) =
      frontCols.filter (fun c => decide (c ∈ A)) := by
    apply List.filter_congr
    intro a _
    simp [mem_orderCols]
  rw [h1, orderCols_filter_not_front]
  rfl

theorem convert_ok_cols (doc : List Placemark) (flag : Option String)
    (geom : List (ℚ × ℚ) → ((ℚ × ℚ) → Bool) × ((ℚ × ℚ) → Bool))
    (cache : Cache) (o : ℕ → ExtOutcome) (out : ConvOut) (pts : List Row)
    (hpts : parse_points doc = .ok pts)
    (hconv : convert doc flag geom cache o = .ok out) :
    out.cols = orderCols
      (if flag.isSome then
        colAdd (colAdd (firstSeenCols pts) (some "boundary")) (some "nama_jalan")
      else colAdd (firstSeenCols pts) (some "boundary")) := by
  unfold convert at hconv
  cases hp : parse_polygons doc with
  | error e => rw [hp] at hconv; cases hconv
  | ok polys =>
    rw [hp, hpts] at hconv
    by_cases hemp : pts.isEmpty
    · simp [hemp] at hconv
    · simp only [hemp, Bool.false_eq_true, if_false] at hconv
      cases ha : assignRows (polys.map (fun p => PolyEntry.mk p.1 (geom p.2).1 (geom p.2).2)) pts with
      | error e => rw [ha] at hconv; cases hconv
      | ok rows1 =>
        rw [ha] at hconv
        cases hf : flag.isSome with
        | false =>
          rw [hf] at hconv
          simp only [Bool.false_eq_true, if_false] at hconv
          cases hconv
          simp [hf]
        | true =>
          rw [hf] at hconv
          simp only [if_true] at hconv
          cases hconv
          simp [hf]

/-- C7: a successful conversion orders its columns as the fixed
preferred prefix (`homepass`, `lat`, `lon`, `nama_jalan`, `boundary`)
restricted to the columns that exist, followed by exactly the
remaining attribute columns in first-seen order; the street-name
column exists iff the geocode flag was set or an extended attribute
supplied it. -/
theorem convert_column_order (doc : List Placemark) (flag : Option String)
    (geom : List (ℚ × ℚ) → ((ℚ × ℚ) → Bool) × ((ℚ × ℚ) → Bool))
    (cache : Cache) (o : ℕ → ExtOutcome) (out : ConvOut) (pts : List Row)
    (hpts : parse_points doc = .ok pts)
    (hconv : convert doc flag geom cache o = .ok out) :
    out.cols = frontCols.filter (fun c => decide (c ∈ out.cols)) ++
      out.cols.filter (fun c => decide (c ∉ frontCols)) ∧
    out.cols.filter (fun c => decide (c ∉ frontCols)) =
      (firstSeenCols pts).filter (fun c => decide (c ∉ frontCols)) ∧
    ((some "nama_jalan") ∈ out.cols ↔
      flag.isSome = true ∨ (some "nama_jalan") ∈ firstSeenCols pts) := by
  have hcols := convert_ok_cols doc flag geom cache o out pts hpts hconv
  refine ⟨?_, ?_, ?_⟩
  · rw [hcols]
    exact orderCols_decomp _
  · rw [hcols, orderCols_filter_not_front]
    cases hf : flag.isSome with
    | false =>
      rw [if_neg (by decide)]
      rw [filter_colAdd]
      decide
    | true =>
      rw [if_pos rfl]
      rw [filter_colAdd, filter_colAdd]
      · decide
      · decide
  · rw [hcols, mem_orderCols]
    cases hf : flag.isSome with
    | false =>
      rw [if_neg (by decide)]
      simp only [Bool.false_eq_true, false_or]
      rw [mem_colAdd]
      have hne : ¬ (some "nama_jalan" : Option String) = some "boundary" := by decide
      simp [hne]
    | true =>
      rw [if_pos rfl]
      simp only [true_or, iff_true]
      rw [mem_colAdd]
      exact Or.inr rfl

/-- A point placemark at `(lon, lat) = (3, 4)` with no name and no
extended data. -/
def pmPointOnly : Placemark := ⟨none, false, none, true, some "3,4", none⟩

/-- The conversion output for `pmPointOnly` without geocoding. -/
def outW : ConvOut :=
  ⟨[some "homepass", some "lat", some "lon", some "boundary"],
   [[(some "homepass", PyVal.vNone), (some "lat", PyVal.vNum 4),
     (some "lon", PyVal.vNum 3), (some "boundary", PyVal.vNone)]],
   []⟩

/-- C7 witness: converting a single-point document without geocoding
puts the present prefix columns first and omits the street column. -/
theorem convert_column_order_witness :
    outW.cols = frontCols.filter (fun c => decide (c ∈ outW.cols)) ++
      outW.cols.filter (fun c => decide (c ∉ frontCols)) ∧
    outW.cols.filter (fun c => decide (c ∉ frontCols)) =
      (firstSeenCols [[(some "homepass", PyVal.vNone), (some "lat", PyVal.vNum 4),
        (some "lon", PyVal.vNum 3)]]).filter (fun c => decide (c ∉ frontCols)) ∧
    ((some "nama_jalan") ∈ outW.cols ↔
      (none : Option String).isSome = true ∨
        (some "nama_jalan") ∈ firstSeenCols [[(some "homepass", PyVal.vNone),
          (some "lat", PyVal.vNum 4), (some "lon", PyVal.vNum 3)]]) :=
  convert_column_order [pmPointOnly] none geomW [] (fun _ => .fail) outW
    [[(some "homepass", PyVal.vNone), (some "lat", PyVal.vNum 4),
      (some "lon", PyVal.vNum 3)]]
    (by rfl) (by rfl)

/-! ### C8: boundary names -/

/-- A polygon placemark whose name text is a single space. -/
def pmWsName : Placemark := ⟨some " ", true, some "0,0 1,0 0,1", false, none, none⟩

/-- C8 counterexample: a whitespace-only name does NOT get the
`UNKNOWN_BOUNDARY` sentinel — the truthy text is stripped to the empty
string and that empty string is the extracted boundary identifier. -/
theorem polygon_name_counterexample :
    parse_polygons [pmWsName] = .ok [("", [(0, 0), (1, 0), (0, 1)])] ∧
    ("" : String) ≠ "UNKNOWN_BOUNDARY" :=
  ⟨rfl, by decide⟩

theorem parse_polygons_cons_ok (pm : Placemark) (rest : List Placemark)
    (coords : List (ℚ × ℚ))
    (h1 : pm.hasPolygon = true)
    (h2 : isBlankText pm.polyCoords = false)
    (h3 : parseRingText ((pm.polyCoords).getD "") = .ok coords)
    (h4 : ¬ coords.length < 3) :
    parse_polygons (pm :: rest) =
      (parse_polygons rest).map
        (fun l => (nameOrDefault pm.name "UNKNOWN_BOUNDARY", coords) :: l) := by
  simp [parse_polygons, h1, h2, h3, h4]

/-- C8 amended: the boundary identifier is the stripped display name;
the `UNKNOWN_BOUNDARY` sentinel is substituted exactly when the name
element is absent or its text is empty, while whitespace-only text is
truthy and strips to the empty string (no sentinel). -/
theorem polygon_name_amended (nm : Option String) (rest : List Placemark)
    (out : List (String × List (ℚ × ℚ)))
    (hparse : parse_polygons
      ((⟨nm, true, some "0,0 1,0 0,1", false, none, none⟩ : Placemark) :: rest) = .ok out) :
    ((nm = none ∨ nm = some "") →
      out.head? = some ("UNKNOWN_BOUNDARY", [(0, 0), (1, 0), (0, 1)])) ∧
    (∀ t : String, nm = some t → t ≠ "" →
      out.head? = some (pyStrip t, [(0, 0), (1, 0), (0, 1)])) := by
  rw [parse_polygons_cons_ok
    (⟨nm, true, some "0,0 1,0 0,1", false, none, none⟩ : Placemark)
    rest [(0, 0), (1, 0), (0, 1)] rfl rfl rfl (by decide)] at hparse
  cases hrest : parse_polygons rest with
  | error e => rw [hrest] at hparse; cases hparse
  | ok l =>
    rw [hrest] at hparse
    cases hparse
    constructor
    · rintro (h | h) <;> rw [h] <;> rfl
    · intro t ht hne
      rw [ht]
      simp [nameOrDefault, hne]

/-- C8 amended witness: a whitespace name strips to `""`, an absent
name gets the sentinel, at the concrete placemarks. -/
theorem polygon_name_amended_witness :
    ([("", [((0 : ℚ), (0 : ℚ)), (1, 0), (0, 1)])] : List (String × List (ℚ × ℚ))).head? =
      some (pyStrip " ", [(0, 0), (1, 0), (0, 1)]) ∧
    ([("UNKNOWN_BOUNDARY", [((0 : ℚ), (0 : ℚ)), (1, 0), (0, 1)])]
        : List (String × List (ℚ × ℚ))).head? =
      some ("UNKNOWN_BOUNDARY", [(0, 0), (1, 0), (0, 1)]) :=
  ⟨(polygon_name_amended (some " ") [] [("", [(0, 0), (1, 0), (0, 1)])] rfl).2
      " " rfl (by decide),
   (polygon_name_amended none [] [("UNKNOWN_BOUNDARY", [(0, 0), (1, 0), (0, 1)])] rfl).1
      (Or.inl rfl)⟩

/-! ### C9: extended attributes overwrite the fixed keys -/

theorem parse_extended_data_nodupKeys (pm : Placemark) :
    (dictKeys (parse_extended_data pm)).Nodup := by
  unfold parse_extended_data
  cases pm.extData with
  | none => simp [dictKeys]
  | some p => exact dictKeys_nodup_foldl _ [] (by simp [dictKeys])

/-- C9: in a point record, an extended attribute named `lat`, `lon` or
`homepass` overwrites the value parsed from the geometry (the
attribute mapping is merged last), so the row hands the attribute's
value to the later pipeline stages instead of the parsed coordinate or
label. -/
theorem point_attr_overwrite (pm : Placemark) (rest : List Placemark)
    (pts : List Row) (lon lat : ℚ) (k : String) (v : Option String)
    (hpt : pm.hasPoint = true)
    (hblank : isBlankText pm.pointCoords = false)
    (hcoords : parsePointCoordText ((pm.pointCoords).getD "") = some (lon, lat))
    (hparse : parse_points (pm :: rest) = .ok pts)
    (hk : k = "lat" ∨ k = "lon" ∨ k = "homepass")
    (hattr : dictLookup (parse_extended_data pm) (some k) = some v) :
    pts.head?.map (fun r => dictLookup r (some k)) = some (some (pyOfOpt v)) := by
  simp only [parse_points, hpt, hblank, hcoords, if_true, Bool.false_eq_true,
    if_false] at hparse
  cases hrest : parse_points rest with
  | error e => rw [hrest] at hparse; cases hparse
  | ok l =>
    rw [hrest] at hparse
    cases hparse
    show some (dictLookup (pointRow pm lon lat) (some k)) = some (some (pyOfOpt v))
    have hlv : lastVal (parse_extended_data pm) (some k) = some v := by
      rw [lastVal_eq_dictLookup_of_nodup _ _ (parse_extended_data_nodupKeys pm)]
      exact hattr
    unfold pointRow
    rw [dictLookup_foldl_insert, lastVal_map_value, hlv]
    rfl

/-- A point placemark whose extended data overwrites `lat`. -/
def pmC9 : Placemark :=
  ⟨some "HP1", false, none, true, some "3,4", some ([(some "lat", some "99.9")], [])⟩

/-- The row `pmC9` extracts to: `lat` holds the attribute string. -/
def rowC9 : Row :=
  [(some "homepass", PyVal.vStr "HP1"), (some "lat", PyVal.vStr "99.9"),
   (some "lon", PyVal.vNum 3)]

/-- C9 witness: the concrete placemark's row holds the attribute string
under `lat`, in place of the parsed latitude `4`. -/
theorem point_attr_overwrite_witness :
    ([rowC9] : List Row).head?.map (fun r => dictLookup r (some "lat")) =
      some (some (PyVal.vStr "99.9")) :=
  point_attr_overwrite pmC9 [] [rowC9] 3 4 "lat" (some "99.9")
    rfl rfl rfl rfl (Or.inl rfl) rfl

/-! ### C10: KMZ member selection -/

/-- C10 counterexample: with two members both named `a.kml` (duplicate
names are legal in a zip archive), the first `.kml` name is selected
but `read` resolves it to the LAST entry bearing that name, so the
returned bytes are the second member's — not the first member in
listing order. -/
theorem kmz_first_counterexample :
    extract_kml_bytes "raw" [("a.kml", "X"), ("a.kml", "Y")] (some "f.kmz") = .ok "Y" ∧
    ("Y" : String) ≠ "X" :=
  ⟨rfl, by decide⟩

theorem dictLookup_of_mem_nodup {K V : Type} [DecidableEq K]
    (l : List (K × V)) (e : K × V) (hnodup : (dictKeys l).Nodup) (hmem : e ∈ l) :
    dictLookup l e.1 = some e.2 := by
  induction l with
  | nil => cases hmem
  | cons a t ih =>
    obtain ⟨a1, a2⟩ := a
    rw [dictKeys_cons, List.nodup_cons] at hnodup
    rw [dictLookup_cons]
    rcases List.mem_cons.mp hmem with he | ht
    · rw [he]
      simp
    · have hne : ¬ a1 = e.1 := by
        intro hh
        apply hnodup.1
        rw [hh]
        exact List.mem_map.mpr ⟨e, ht, rfl⟩
      rw [if_neg hne]
      exact ih hnodup.2 ht

theorem filtered_names_head {V : Type} (l : List (String × V)) (p : String → Bool)
    (e0 : String × V) (hfind : l.find? (fun q => p q.1) = some e0) :
    ∃ t, (l.map (fun q => q.1)).filter p = e0.1 :: t := by
  induction l with
  | nil => cases hfind
  | cons a t ih =>
    rw [List.find?_cons] at hfind
    by_cases hpa : p a.1
    · simp only [hpa] at hfind
      cases hfind
      refine ⟨(t.map (fun q => q.1)).filter p, ?_⟩
      rw [List.map_cons, List.filter_cons_of_pos]
      exact hpa
    · rw [Bool.not_eq_true] at hpa
      simp only [hpa] at hfind
      obtain ⟨tl, htl⟩ := ih hfind
      refine ⟨tl, ?_⟩
      rw [List.map_cons, List.filter_cons_of_neg, htl]
      simp [hpa]

/-- C10 amended: for a `.kmz` upload the code takes the FIRST member
name ending in `.kml` and reads that name; `zipfile` resolves a name
to the last entry bearing it, so when the member names are distinct
the first `.kml` member's content is returned, while duplicated names
yield the last same-named entry (see the counterexample). -/
theorem kmz_member_selection (raw : String) (archive : List (String × String))
    (fn : String) (e0 : String × String)
    (h1 : pyEndsWith (pyLower fn) ".kml" = false)
    (h2 : pyEndsWith (pyLower fn) ".kmz" = true)
    (hnodup : (dictKeys archive).Nodup)
    (hfind : archive.find? (fun q => pyEndsWith (pyLower q.1) ".kml") = some e0) :
    extract_kml_bytes raw archive (some fn) = .ok e0.2 := by
  simp only [extract_kml_bytes, Option.getD, h1, h2, Bool.false_eq_true,
    if_false, if_true]
  obtain ⟨tl, htl⟩ := filtered_names_head archive
    (fun n => pyEndsWith (pyLower n) ".kml") e0 hfind
  rw [htl]
  have hread : zipRead archive e0.1 = some e0.2 := by
    unfold zipRead
    rw [lastVal_eq_dictLookup_of_nodup _ _ hnodup]
    exact dictLookup_of_mem_nodup archive e0 hnodup (List.mem_of_find?_eq_some hfind)
  show (match zipRead archive e0.1 with
    | some content => Except.ok content
    | none => Except.error AppErr.valueError) = Except.ok e0.2
  rw [hread]

/-- C10 amended witness: with distinct member names the first
(case-insensitive) `.kml` member is returned. -/
theorem kmz_member_selection_witness :
    extract_kml_bytes "raw" [("b.txt", "t"), ("A.KML", "X"), ("c.kml", "Y")]
      (some "u.KMZ") = .ok "X" :=
  kmz_member_selection "raw" [("b.txt", "t"), ("A.KML", "X"), ("c.kml", "Y")]
    "u.KMZ" ("A.KML", "X") rfl rfl (by decide) rfl

end Kmz2Csv
